import Mathlib

set_option maxRecDepth 10000

/-! Verification of the RSS feed fetcher/parser in `api/get-news.ts`.

The source is a single TypeScript file: a regex-based RSS item extractor
(`parseRSS`, with the helper `decodeEntities`) and a serverless `handler`
that fetches the feed, parses it, sets caching/CORS headers and replies
with JSON.  Strings are embedded as `List Char`; each JavaScript regex
operation used by the source is embedded as an explicit scanning function
with the exact left-to-right, leftmost-match semantics of the regex calls
in the source.  Scanning functions that are not structurally recursive
take an explicit fuel argument; every call site passes the length of the
scanned string, which is an upper bound on the number of scanning steps
because every step either consumes at least one character or terminates.
-/

abbrev Str := List Char

def str (s : String) : Str := s.data

/-- Anchored literal match: `startsWithL p s` is true when `p` is a
literal prefix of `s` (the test the regex engine performs at one
position). -/
def startsWithL : Str → Str → Bool
  | [], _ => true
  | _ :: _, [] => false
  | p :: ps, c :: cs => if p = c then startsWithL ps cs else false

/-- Literal suffix test, JavaScript `String.prototype.endsWith`. -/
def endsWithL (p s : Str) : Bool := startsWithL p.reverse s.reverse

/-- First occurrence of the literal `pat` in a string: returns the text
before the occurrence and the text after it.  This is the core of the
leftmost-match semantics of every regex in the source. -/
def splitOnFirst (pat : Str) : Str → Option (Str × Str)
  | [] => none
  | c :: rest =>
    if startsWithL pat (c :: rest) then some ([], (c :: rest).drop pat.length)
    else match splitOnFirst pat rest with
      | none => none
      | some (pre, post) => some (c :: pre, post)

/-- Number of positions at which `pat` occurs in the string
(the number of `<item>` occurrences, for the cardinality bound). -/
def countOccur (pat : Str) : Str → Nat
  | [] => 0
  | c :: rest => (if startsWithL pat (c :: rest) then 1 else 0) + countOccur pat rest

/-- The capture `itemContent.match(/<open>([\s\S]*?)<\/open>/)?.[1]`: the lazily
matched text between the first `opn` and the first `cls` after it.
If no `cls` follows the first `opn`, no later start position can
succeed either, so the whole match fails. -/
def matchBetween (opn cls s : Str) : Option Str :=
  match splitOnFirst opn s with
  | none => none
  | some (_, rest) =>
    match splitOnFirst cls rest with
    | none => none
    | some (content, _) => some content

/-- Whitespace for JavaScript `String.prototype.trim` (the code points the
source's feed text can contain; other Unicode space separators recognised
by JavaScript are not exercised by the repository's feed fields). -/
def isWs (c : Char) : Bool :=
  c = ' ' || c = '\t' || c = '\n' || c = '\r' || c = '\x0b' || c = '\x0c'

/-- JavaScript `String.prototype.trim`. -/
def trim (s : Str) : Str := ((s.dropWhile isWs).reverse.dropWhile isWs).reverse

/-- JavaScript `String.prototype.substring(a, b)`: clamps both indices to
the string length and swaps them when `a > b`. -/
def jsSubstring (s : Str) (a b : Nat) : Str :=
  let a' := min a s.length
  let b' := min b s.length
  (s.drop (min a' b')).take (max a' b' - min a' b')

/-- One global single-pass literal replacement,
`s.replace(/pat/g, rep)` for a literal pattern: scans left to right,
never rescanning replaced text.  `fuel` is the number of remaining scan
steps; callers pass the string length, which always suffices because each
step consumes at least one input character. -/
def replaceAllAux (pat rep : Str) : Nat → Str → Str
  | _, [] => []
  | 0, s => s
  | fuel + 1, c :: rest =>
    if startsWithL pat (c :: rest) then
      rep ++ replaceAllAux pat rep fuel ((c :: rest).drop pat.length)
    else c :: replaceAllAux pat rep fuel rest

def replaceAll (pat rep s : Str) : Str := replaceAllAux pat rep s.length s

def digitsToNat (ds : Str) : Nat :=
  ds.foldl (fun acc c => acc * 10 + (c.toNat - '0'.toNat)) 0

/-- The pass `s.replace(/&#(\d+);/g, (m, dec) => String.fromCharCode(dec))`:
each numeric character reference becomes the character with that code,
reduced modulo 2^16 as JavaScript's `fromCharCode` does (`Char.ofNat`
maps the surrogate range, which no feed exercises, to NUL). -/
def decodeNumericAux : Nat → Str → Str
  | _, [] => []
  | 0, s => s
  | fuel + 1, c :: rest =>
    if c = '&' then
      match rest with
      | '#' :: rest2 =>
        let ds := rest2.takeWhile Char.isDigit
        let r2 := rest2.dropWhile Char.isDigit
        if ds ≠ [] then
          match r2 with
          | ';' :: r3 => Char.ofNat (digitsToNat ds % 65536) :: decodeNumericAux fuel r3
          | _ => c :: decodeNumericAux fuel rest
        else c :: decodeNumericAux fuel rest
      | _ => c :: decodeNumericAux fuel rest
    else c :: decodeNumericAux fuel rest

def decodeNumeric (s : Str) : Str := decodeNumericAux s.length s

/-- The pass `s.replace(/&#0*39;/g, "'")`: an ampersand and hash followed by the
maximal run of zeros, then literally `39;` (backtracking over the zeros
cannot help because a shorter run is followed by `0`, not `3`). -/
def decodeAposAux : Nat → Str → Str
  | _, [] => []
  | 0, s => s
  | fuel + 1, c :: rest =>
    if c = '&' then
      match rest with
      | '#' :: rest2 =>
        match rest2.dropWhile (fun d => d = '0') with
        | '3' :: '9' :: ';' :: r3 => '\'' :: decodeAposAux fuel r3
        | _ => c :: decodeAposAux fuel rest
      | _ => c :: decodeAposAux fuel rest
    else c :: decodeAposAux fuel rest

def decodeApos (s : Str) : Str := decodeAposAux s.length s

/-- The source's `decodeEntities`: empty input short-circuits to empty;
otherwise the numeric pass runs first, then the literal passes for
`&amp;` `&lt;` `&gt;` `&quot;`, then the `&#0*39;` pass, in this order. -/
def decodeEntities (s : Str) : Str :=
  if s = [] then []
  else
    decodeApos
      (replaceAll (str "&quot;") ['"']
        (replaceAll (str "&gt;") ['>']
          (replaceAll (str "&lt;") ['<']
            (replaceAll (str "&amp;") ['&']
              (decodeNumeric s)))))

/-- The pass `s.replace(/<[^>]*>/gm, '')`: at each `<`, the greedy run of
non-`>` characters followed by a mandatory `>` is removed (everything
through the first `>` after the `<`); a `<` with no later `>` stays. -/
def stripTagsAux : Nat → Str → Str
  | _, [] => []
  | 0, s => s
  | fuel + 1, c :: rest =>
    if c = '<' then
      match splitOnFirst ['>'] rest with
      | some (_, post) => stripTagsAux fuel post
      | none => c :: stripTagsAux fuel rest
    else c :: stripTagsAux fuel rest

def stripTags (s : Str) : Str := stripTagsAux s.length s

/-- Shifting a split result over a skipped leading segment. -/
def shiftSplit (a : Str) (r : Option (Str × Str)) : Option (Str × Str) :=
  r.map (fun pr => (a ++ pr.1, pr.2))

/-- A decidable certificate (checked by `decide` for concrete tag literals)
that no occurrence of `pat` can begin inside the segment `a`, whatever
text follows:
at every start position either a long-enough suffix of `a` fails to match
`pat`, or the short remaining suffix is not itself a prefix of `pat`. -/
def noOccurSeg (pat : Str) : Str → Bool
  | [] => true
  | c :: a =>
    (if pat.length ≤ a.length + 1 then !(startsWithL pat (c :: a))
     else !(startsWithL (c :: a) pat))
    && noOccurSeg pat a

def itemOpenL : Str := str "<item>"
def itemCloseL : Str := str "</item>"
def titleOpenL : Str := str "<title>"
def titleCloseL : Str := str "</title>"
def linkOpenL : Str := str "<link>"
def linkCloseL : Str := str "</link>"
def descOpenL : Str := str "<description>"
def descCloseL : Str := str "</description>"
def pubOpenL : Str := str "<pubDate>"
def pubCloseL : Str := str "</pubDate>"
def cdataOpenL : Str := str "<![CDATA["
def cdataCloseL : Str := str "]]>"
def thumbOpenL : Str := str "<media:thumbnail url=\""

structure NewsItem where
  title : Str
  link : Str
  description : Str
  pubDate : Str
  imageUrl : Option Str
deriving DecidableEq, Repr

/-- The title computation applied to the raw matched `<title>` group:
`undefined` unless the match succeeded with a non-empty group; trim,
strip a CDATA envelope when the trimmed text both starts and ends with
its markers, trim again, then decode entities. -/
def processTitleRaw (raw : Str) : Option Str :=
  if raw = [] then none
  else
    let rawTitle := trim raw
    let t :=
      if startsWithL cdataOpenL rawTitle && endsWithL cdataCloseL rawTitle then
        trim (jsSubstring rawTitle 9 (rawTitle.length - 3))
      else rawTitle
    some (decodeEntities t)

/-- The description computation applied to the raw matched group (empty
when the `<description>` match failed): trim, strip a CDATA envelope when
the trimmed text starts with the opening marker (the source checks only
the start here), then — when non-empty — decode entities, strip tags and
trim; otherwise empty. -/
def processDescRaw (raw : Str) : Str :=
  let rd := trim raw
  let rd2 :=
    if startsWithL cdataOpenL rd then trim (jsSubstring rd 9 (rd.length - 3))
    else rd
  if rd2 = [] then [] else trim (stripTags (decodeEntities rd2))

def titleOf (content : Str) : Option Str :=
  match matchBetween titleOpenL titleCloseL content with
  | none => none
  | some raw => processTitleRaw raw

def linkOf (content : Str) : Option Str :=
  (matchBetween linkOpenL linkCloseL content).map trim

def descriptionOf (content : Str) : Str :=
  processDescRaw ((matchBetween descOpenL descCloseL content).getD [])

def pubDateOf (content : Str) : Option Str :=
  (matchBetween pubOpenL pubCloseL content).map trim

/-- The capture `itemContent.match(/<media:thumbnail url="([^"]*)"/)?.[1]`:
text after the first occurrence of the literal opening, up to the
next `"`. -/
def imageUrlOf (content : Str) : Option Str :=
  match splitOnFirst thumbOpenL content with
  | none => none
  | some (_, rest) =>
    match splitOnFirst ['"'] rest with
    | none => none
    | some (url, _) => some url

/-- The body of one iteration of the source's `while` loop: the record
pushed for one `<item>` block, or nothing.  The push is guarded by
JavaScript truthiness of `title`, `link` and `pubDate`: each must be
present and non-empty. -/
def processItem (content : Str) : Option NewsItem :=
  match titleOf content, linkOf content, pubDateOf content with
  | some t, some l, some p =>
    if t ≠ [] ∧ l ≠ [] ∧ p ≠ [] then
      some ⟨t, l, descriptionOf content, p, imageUrlOf content⟩
    else none
  | _, _, _ => none

/-- The `/<item>([\s\S]*?)<\/item>/g` exec loop: repeatedly take the text
between the next `<item>` and the first `</item>` after it, continuing
after the closing tag.  Fuel is the scanned length; each iteration
consumes at least the two tags, so the fuel never runs out. -/
def extractItemsAux : Nat → Str → List Str
  | 0, _ => []
  | fuel + 1, s =>
    match splitOnFirst itemOpenL s with
    | none => []
    | some (_, rest) =>
      match splitOnFirst itemCloseL rest with
      | none => []
      | some (content, rest2) => content :: extractItemsAux fuel rest2

def extractItems (s : Str) : List Str := extractItemsAux s.length s

/-- The source's `parseRSS`. -/
def parseRSS (xml : Str) : List NewsItem :=
  (extractItems xml).filterMap processItem

/-! The endpoint handler, embedded as a function of the outcome of the
single upstream fetch (the one suspension point): either an HTTP response
with status, status text and body text, or a network-level error whose
message string is what `error.message` yields in the catch block. -/

inductive FetchOutcome where
  | response (status : Nat) (statusText : Str) (body : Str)
  | netError (message : Str)

inductive JsonBody where
  | items (l : List NewsItem)
  | errorObj (error details : Str)
deriving DecidableEq

structure ApiResult where
  status : Nat
  headers : List (Str × Str)
  body : JsonBody
deriving DecidableEq

/-- Whether `Response.ok` holds: status in the 2xx range. -/
def okStatus (n : Nat) : Bool := 200 ≤ n && n < 300

def natToStr (n : Nat) : Str := (Nat.repr n).data

/-- The message built by `throw new Error(`Failed to fetch RSS feed:
${response.status} ${response.statusText}`)`. -/
def fetchFailMsg (st : Nat) (stTxt : Str) : Str :=
  str "Failed to fetch RSS feed: " ++ natToStr st ++ [' '] ++ stTxt

def genericErrMsg : Str := str "Failed to fetch or parse RSS feed"

def cacheHeader : Str × Str :=
  (str "Cache-Control", str "s-maxage=60, stale-while-revalidate=600")

def corsHeader : Str × Str := (str "Access-Control-Allow-Origin", str "*")

/-- The source's `handler`: a non-2xx upstream status throws, every throw
is caught and becomes a 500 JSON error object with the generic message and
the thrown message as details, with no headers set; on success the two
headers are set and the parsed items are returned with status 200. -/
def handler (f : FetchOutcome) : ApiResult :=
  match f with
  | .netError msg => ⟨500, [], .errorObj genericErrMsg msg⟩
  | .response st stTxt body =>
    if okStatus st then
      ⟨200, [cacheHeader, corsHeader], .items (parseRSS body)⟩
    else
      ⟨500, [], .errorObj genericErrMsg (fetchFailMsg st stTxt)⟩

/-! Basic facts about the literal scanning primitives. -/

theorem startsWithL_append_self (a s : Str) : startsWithL a (a ++ s) = true := by
  induction a with
  | nil => rfl
  | cons c cs ih => simp [startsWithL, ih]

theorem startsWithL_head_notMem (p : Char) (ps s : Str) (h : p ∉ s) :
    startsWithL (p :: ps) s = false := by
  cases s with
  | nil => rfl
  | cons c cs =>
    have : p ≠ c := by intro hc; exact h (by simp [hc])
    simp [startsWithL, this]

theorem startsWithL_append_of_le (pat a s : Str) (h : pat.length ≤ a.length) :
    startsWithL pat (a ++ s) = startsWithL pat a := by
  induction pat generalizing a with
  | nil => rfl
  | cons p ps ih =>
    cases a with
    | nil => simp at h
    | cons c cs =>
      simp only [List.cons_append, startsWithL]
      by_cases hpc : p = c
      · simp [hpc, ih cs (by simpa using h)]
      · simp [hpc]

theorem startsWithL_of_append_of_le (pat a s : Str) (h : a.length ≤ pat.length)
    (h2 : startsWithL pat (a ++ s) = true) : startsWithL a pat = true := by
  induction a generalizing pat with
  | nil => rfl
  | cons c cs ih =>
    cases pat with
    | nil => simp at h
    | cons p ps =>
      simp only [List.cons_append, startsWithL] at h2
      by_cases hpc : p = c
      · subst hpc
        simp only [if_pos rfl] at h2
        simp [startsWithL, ih ps (by simpa using h) h2]
      · simp [hpc] at h2

theorem startsWithL_eq_append (pat s : Str) (h : startsWithL pat s = true) :
    pat ++ s.drop pat.length = s := by
  induction pat generalizing s with
  | nil => simp
  | cons p ps ih =>
    cases s with
    | nil => simp [startsWithL] at h
    | cons c cs =>
      simp only [startsWithL] at h
      by_cases hpc : p = c
      · subst hpc
        simp only [if_pos rfl] at h
        simpa using ih cs h
      · simp [hpc] at h

theorem drop_length_append (a s : Str) : (a ++ s).drop a.length = s :=
  List.drop_left a s

theorem splitOnFirst_self_append (p : Char) (ps s : Str) :
    splitOnFirst (p :: ps) ((p :: ps) ++ s) = some ([], s) := by
  have h : startsWithL (p :: ps) (p :: (ps ++ s)) = true :=
    startsWithL_append_self (p :: ps) s
  have hd : (p :: (ps ++ s)).drop (p :: ps).length = s :=
    drop_length_append (p :: ps) s
  simp only [List.cons_append, splitOnFirst, List.append_eq]
  rw [if_pos h, hd]

theorem splitOnFirst_structure (pat s pre post : Str)
    (h : splitOnFirst pat s = some (pre, post)) : s = pre ++ pat ++ post := by
  induction s generalizing pre with
  | nil => simp [splitOnFirst] at h
  | cons c cs ih =>
    simp only [splitOnFirst] at h
    by_cases hp : startsWithL pat (c :: cs) = true
    · simp only [hp, if_pos, Option.some.injEq, Prod.mk.injEq] at h
      obtain ⟨h1, h2⟩ := h
      subst h1; subst h2
      simpa using (startsWithL_eq_append pat (c :: cs) hp).symm
    · simp only [hp] at h
      simp only [Bool.false_eq_true, if_false] at h
      cases hrec : splitOnFirst pat cs with
      | none => simp [hrec] at h
      | some pr =>
        obtain ⟨pre', post'⟩ := pr
        simp only [hrec, Option.some.injEq, Prod.mk.injEq] at h
        obtain ⟨h1, h2⟩ := h
        subst h2
        have := ih pre' hrec
        subst this
        simp [← h1]

theorem splitOnFirst_none_of_notMem (p : Char) (ps s : Str) (h : p ∉ s) :
    splitOnFirst (p :: ps) s = none := by
  induction s with
  | nil => rfl
  | cons c cs ih =>
    have hh : startsWithL (p :: ps) (c :: cs) = false := startsWithL_head_notMem p ps _ h
    have hm : p ∉ cs := fun hc => h (by simp [hc])
    simp [splitOnFirst, hh, ih hm]

theorem shiftSplit_nil (r : Option (Str × Str)) : shiftSplit [] r = r := by
  cases r with
  | none => rfl
  | some pr => cases pr; simp [shiftSplit]

theorem shiftSplit_none (a : Str) : shiftSplit a none = none := rfl

theorem shiftSplit_some (a x y : Str) : shiftSplit a (some (x, y)) = some (a ++ x, y) := rfl

/-- Skipping a concrete segment in which the pattern cannot start. -/
theorem splitOnFirst_seg_append (pat a s : Str) (h : noOccurSeg pat a = true) :
    splitOnFirst pat (a ++ s) = shiftSplit a (splitOnFirst pat s) := by
  induction a with
  | nil => simp [shiftSplit_nil]
  | cons c a ih =>
    simp only [noOccurSeg, Bool.and_eq_true] at h
    obtain ⟨h1, h2⟩ := h
    have hfalse : startsWithL pat ((c :: a) ++ s) = false := by
      by_cases hl : pat.length ≤ a.length + 1
      · rw [if_pos hl, Bool.not_eq_true'] at h1
        rw [startsWithL_append_of_le pat (c :: a) s (by simpa using hl)]
        exact h1
      · rw [if_neg hl, Bool.not_eq_true'] at h1
        cases hb : startsWithL pat ((c :: a) ++ s) with
        | false => rfl
        | true =>
          have := startsWithL_of_append_of_le pat (c :: a) s (by simp; omega) hb
          rw [this] at h1
          exact absurd h1 (by simp)
    simp only [List.cons_append, splitOnFirst, List.append_eq]
    rw [if_neg (by simpa using hfalse)]
    rw [ih h2]
    cases hr : splitOnFirst pat s with
    | none => simp [shiftSplit]
    | some pr => cases pr; simp [shiftSplit]

/-- Skipping a segment none of whose characters equals the pattern's
first character (the `<`-free title/link/pubDate payloads). -/
theorem splitOnFirst_abs_append (pat a s : Str) (hne : pat ≠ [])
    (h : ∀ c ∈ a, pat.head? ≠ some c) :
    splitOnFirst pat (a ++ s) = shiftSplit a (splitOnFirst pat s) := by
  obtain ⟨p, ps, rfl⟩ : ∃ p ps, pat = p :: ps := by
    cases pat with
    | nil => exact absurd rfl hne
    | cons p ps => exact ⟨p, ps, rfl⟩
  induction a with
  | nil => simp [shiftSplit_nil]
  | cons c a ih =>
    have hcp : p ≠ c := by
      have := h c (by simp)
      simp only [List.head?, ne_eq, Option.some.injEq] at this
      exact this
    have hrec : ∀ c' ∈ a, (p :: ps).head? ≠ some c' := fun c' hc' => h c' (by simp [hc'])
    simp only [List.cons_append, splitOnFirst, startsWithL, List.append_eq]
    rw [if_neg (by simp [hcp])]
    rw [ih hrec]
    cases hr : splitOnFirst (p :: ps) s with
    | none => simp [shiftSplit]
    | some pr => cases pr; simp [shiftSplit]

/-! Occurrence counting, for the cardinality bound of the item loop. -/

theorem countOccur_cons_le (pat : Str) (c : Char) (cs : Str) :
    countOccur pat cs ≤ countOccur pat (c :: cs) := by
  simp only [countOccur]
  exact Nat.le_add_left _ _

theorem countOccur_drop_le (pat : Str) : ∀ (k : Nat) (s : Str),
    countOccur pat (s.drop k) ≤ countOccur pat s := by
  intro k
  induction k with
  | zero => intro s; simp
  | succ n ih =>
    intro s
    cases s with
    | nil => simp
    | cons c cs =>
      calc countOccur pat ((c :: cs).drop (n + 1)) = countOccur pat (cs.drop n) := rfl
        _ ≤ countOccur pat cs := ih cs
        _ ≤ countOccur pat (c :: cs) := countOccur_cons_le pat c cs

theorem countOccur_post_lt (pat : Str) (hne : pat ≠ []) : ∀ (s pre post : Str),
    splitOnFirst pat s = some (pre, post) → countOccur pat post < countOccur pat s := by
  obtain ⟨p, ps, rfl⟩ : ∃ p ps, pat = p :: ps := by
    cases pat with
    | nil => exact absurd rfl hne
    | cons p ps => exact ⟨p, ps, rfl⟩
  intro s
  induction s with
  | nil => intro pre post h; simp [splitOnFirst] at h
  | cons c cs ih =>
    intro pre post h
    simp only [splitOnFirst] at h
    by_cases hp : startsWithL (p :: ps) (c :: cs) = true
    · simp only [hp, if_pos, Option.some.injEq, Prod.mk.injEq] at h
      obtain ⟨h1, h2⟩ := h
      have hpost : post = cs.drop ps.length := by rw [← h2]; rfl
      calc countOccur (p :: ps) post ≤ countOccur (p :: ps) cs := by
            rw [hpost]; exact countOccur_drop_le _ _ _
        _ < countOccur (p :: ps) (c :: cs) := by
            simp only [countOccur, hp, if_pos]
            omega
    · simp only [hp] at h
      simp only [Bool.false_eq_true, if_false] at h
      cases hrec : splitOnFirst (p :: ps) cs with
      | none => simp [hrec] at h
      | some pr =>
        obtain ⟨pre', post'⟩ := pr
        simp only [hrec, Option.some.injEq, Prod.mk.injEq] at h
        obtain ⟨h1, h2⟩ := h
        calc countOccur (p :: ps) post = countOccur (p :: ps) post' := by rw [h2]
          _ < countOccur (p :: ps) cs := ih pre' post' hrec
          _ ≤ countOccur (p :: ps) (c :: cs) := countOccur_cons_le _ _ _

/-- Each loop iteration consumes the first `<item>` occurrence, so the
number of extracted blocks is bounded by the occurrence count. -/
theorem extractItemsAux_length_le : ∀ (fuel : Nat) (s : Str),
    (extractItemsAux fuel s).length ≤ countOccur itemOpenL s := by
  intro fuel
  induction fuel with
  | zero => intro s; simp [extractItemsAux]
  | succ n ih =>
    intro s
    simp only [extractItemsAux]
    cases h1 : splitOnFirst itemOpenL s with
    | none => simp
    | some pr1 =>
      obtain ⟨pre1, rest⟩ := pr1
      simp only
      cases h2 : splitOnFirst itemCloseL rest with
      | none => simp [h2]
      | some pr2 =>
        obtain ⟨content, rest2⟩ := pr2
        simp only [h2, List.length_cons]
        have hs2 : rest = (content ++ itemCloseL) ++ rest2 := by
          have := splitOnFirst_structure itemCloseL rest content rest2 h2
          simpa [List.append_assoc] using this
        have hrest2 : countOccur itemOpenL rest2 ≤ countOccur itemOpenL rest := by
          have hdrop : rest.drop (content ++ itemCloseL).length = rest2 := by
            rw [hs2]; exact drop_length_append _ _
          rw [← hdrop]
          exact countOccur_drop_le _ _ _
        have hrest : countOccur itemOpenL rest < countOccur itemOpenL s :=
          countOccur_post_lt itemOpenL (by decide) s pre1 rest h1
        have := ih rest2
        omega

theorem extractItems_length_le (s : Str) :
    (extractItems s).length ≤ countOccur itemOpenL s :=
  extractItemsAux_length_le s.length s

/-! Facts about `trim` and the entity-decoding passes. -/

theorem mem_trim {c : Char} {s : Str} (h : c ∈ trim s) : c ∈ s := by
  simp only [trim, List.mem_reverse] at h
  have h2 := (List.dropWhile_sublist (l := (s.dropWhile isWs).reverse) (p := isWs)).mem h
  simp only [List.mem_reverse] at h2
  exact (List.dropWhile_sublist (l := s) (p := isWs)).mem h2

theorem trim_nil : trim [] = [] := rfl

theorem ne_nil_of_trim_ne_nil {s : Str} (h : trim s ≠ []) : s ≠ [] :=
  fun hs => h (by rw [hs]; rfl)

theorem trim_eq_self {s : Str} (h1 : s.dropWhile isWs = s)
    (h2 : s.reverse.dropWhile isWs = s.reverse) : trim s = s := by
  simp [trim, h1, h2]

theorem replaceAllAux_id (p : Char) (ps rep : Str) : ∀ (s : Str) (fuel : Nat),
    p ∉ s → replaceAllAux (p :: ps) rep fuel s = s := by
  intro s
  induction s with
  | nil => intro fuel _; cases fuel <;> rfl
  | cons c cs ih =>
    intro fuel h
    cases fuel with
    | zero => rfl
    | succ n =>
      have hf : startsWithL (p :: ps) (c :: cs) = false := startsWithL_head_notMem p ps _ h
      simp only [replaceAllAux, hf]
      simp [ih n (fun hc => h (by simp [hc]))]

theorem decodeNumericAux_id : ∀ (s : Str) (fuel : Nat),
    '&' ∉ s → decodeNumericAux fuel s = s := by
  intro s
  induction s with
  | nil => intro fuel _; cases fuel <;> rfl
  | cons c cs ih =>
    intro fuel h
    cases fuel with
    | zero => rfl
    | succ n =>
      have hc : c ≠ '&' := fun hc => h (by simp [hc])
      simp only [decodeNumericAux]
      rw [if_neg hc]
      simp [ih n (fun hm => h (by simp [hm]))]

theorem decodeAposAux_id : ∀ (s : Str) (fuel : Nat),
    '&' ∉ s → decodeAposAux fuel s = s := by
  intro s
  induction s with
  | nil => intro fuel _; cases fuel <;> rfl
  | cons c cs ih =>
    intro fuel h
    cases fuel with
    | zero => rfl
    | succ n =>
      have hc : c ≠ '&' := fun hc => h (by simp [hc])
      simp only [decodeAposAux]
      rw [if_neg hc]
      simp [ih n (fun hm => h (by simp [hm]))]

/-- Text without an ampersand is left unchanged by every decoding pass. -/
theorem decodeEntities_id (s : Str) (h : '&' ∉ s) : decodeEntities s = s := by
  by_cases hs : s = []
  · rw [hs]; rfl
  · have hnum : decodeNumeric s = s := decodeNumericAux_id s s.length h
    have hamp : replaceAll (str "&amp;") ['&'] s = s := by
      rw [show str "&amp;" = '&' :: str "amp;" from rfl]
      exact replaceAllAux_id '&' (str "amp;") ['&'] s s.length h
    have hlt : replaceAll (str "&lt;") ['<'] s = s := by
      rw [show str "&lt;" = '&' :: str "lt;" from rfl]
      exact replaceAllAux_id '&' (str "lt;") ['<'] s s.length h
    have hgt : replaceAll (str "&gt;") ['>'] s = s := by
      rw [show str "&gt;" = '&' :: str "gt;" from rfl]
      exact replaceAllAux_id '&' (str "gt;") ['>'] s s.length h
    have hquot : replaceAll (str "&quot;") ['"'] s = s := by
      rw [show str "&quot;" = '&' :: str "quot;" from rfl]
      exact replaceAllAux_id '&' (str "quot;") ['"'] s s.length h
    have hapos : decodeApos s = s := decodeAposAux_id s s.length h
    simp only [decodeEntities]
    rw [if_neg hs, show decodeNumeric s = s from hnum, hamp, hlt, hgt, hquot, hapos]

/-! Facts about the tag-stripping pass. -/

theorem stripTagsAux_id : ∀ (s : Str) (fuel : Nat),
    '>' ∉ s → stripTagsAux fuel s = s := by
  intro s
  induction s with
  | nil => intro fuel _; cases fuel <;> rfl
  | cons c cs ih =>
    intro fuel h
    cases fuel with
    | zero => rfl
    | succ n =>
      have hm : '>' ∉ cs := fun hm => h (by simp [hm])
      simp only [stripTagsAux]
      by_cases hc : c = '<'
      · rw [if_pos hc, splitOnFirst_none_of_notMem '>' [] cs hm]
        simp [ih n hm]
      · rw [if_neg hc]
        simp [ih n hm]

/-- A character with no closing delimiter anywhere after it is never
removed: tag removal requires the closing `>`. -/
theorem stripTags_id (s : Str) (h : '>' ∉ s) : stripTags s = s :=
  stripTagsAux_id s s.length h

theorem stripTagsAux_stable : ∀ (n : Nat) (s : Str), s.length ≤ n →
    ∀ (f1 f2 : Nat), s.length ≤ f1 → s.length ≤ f2 →
    stripTagsAux f1 s = stripTagsAux f2 s := by
  intro n
  induction n with
  | zero =>
    intro s hs f1 f2 _ _
    have : s = [] := List.length_eq_zero.mp (Nat.le_zero.mp hs)
    rw [this]
    cases f1 <;> cases f2 <;> rfl
  | succ n ih =>
    intro s hs f1 f2 h1 h2
    cases s with
    | nil => cases f1 <;> cases f2 <;> rfl
    | cons c rest =>
      cases f1 with
      | zero => simp at h1
      | succ g1 =>
        cases f2 with
        | zero => simp at h2
        | succ g2 =>
          simp only [List.length_cons, Nat.succ_le_succ_iff] at hs h1 h2
          simp only [stripTagsAux]
          by_cases hc : c = '<'
          · rw [if_pos hc, if_pos hc]
            cases hsp : splitOnFirst ['>'] rest with
            | some pr =>
              obtain ⟨pre, post⟩ := pr
              have hstruct := splitOnFirst_structure ['>'] rest pre post hsp
              have hlen : post.length < rest.length := by
                have := congrArg List.length hstruct
                simp at this
                omega
              exact ih post (by omega) g1 g2 (by omega) (by omega)
            | none =>
              simp only
              rw [ih rest (by omega) g1 g2 (by omega) (by omega)]
          · rw [if_neg hc, if_neg hc]
            rw [ih rest (by omega) g1 g2 (by omega) (by omega)]

/-- A complete tag at the head of the text — an opening `<`, any run of
characters without `>`, then the mandatory `>` — is removed whole. -/
theorem stripTags_cons_tag (inner b : Str) (h : '>' ∉ inner) :
    stripTags ('<' :: (inner ++ '>' :: b)) = stripTags b := by
  have hsp : splitOnFirst ['>'] (inner ++ '>' :: b) = some (inner, b) := by
    rw [splitOnFirst_abs_append ['>'] inner ('>' :: b) (by simp)
      (fun c hc => by simp only [List.head?, ne_eq, Option.some.injEq]
                      exact fun he => h (he ▸ hc))]
    rw [show ('>' :: b : Str) = ['>'] ++ b from rfl, splitOnFirst_self_append '>' [] b]
    simp [shiftSplit]
  show stripTagsAux ('<' :: (inner ++ '>' :: b)).length ('<' :: (inner ++ '>' :: b)) = _
  simp only [List.length_cons, stripTagsAux, if_pos rfl, hsp]
  apply stripTagsAux_stable (inner ++ '>' :: b).length b
  · simp [List.length_append]; omega
  · simp [List.length_append]; omega
  · exact Nat.le_refl _

/-- Characters outside removed tags are preserved verbatim. -/
theorem stripTags_cons_other (c : Char) (b : Str) (h : c ≠ '<') :
    stripTags (c :: b) = c :: stripTags b := by
  show stripTagsAux (c :: b).length (c :: b) = _
  simp only [List.length_cons, stripTagsAux]
  rw [if_neg h]
  rfl

/-! Claim theorems. -/

/-- Claim C2: the single-item example input yields exactly one record with
title `Test`, link `http://x/1`, pubDate `Mon, 01 Jan 2024 00:00:00 GMT`,
description `Hi` (entity-decoded and tag-stripped), and no image URL. -/
theorem claim2_example_end_to_end :
    parseRSS (str "<item><title>Test</title><link>http://x/1</link><pubDate>Mon, 01 Jan 2024 00:00:00 GMT</pubDate><description>&lt;p&gt;Hi&lt;/p&gt;</description></item>") =
      [⟨str "Test", str "http://x/1", str "Hi",
        str "Mon, 01 Jan 2024 00:00:00 GMT", none⟩] := by
  rfl

/-- Claim C5: description tag-stripping removes complete tags only — a
closing `>` is mandatory (text with no `>` is untouched), a complete
`<...>` group is deleted whole, characters outside tags are preserved,
and the description `<b>bold</b> text` yields `bold text`. -/
theorem claim5_tag_stripping (s inner b : Str) (c : Char)
    (h1 : '>' ∉ s) (h2 : '>' ∉ inner) (h3 : c ≠ '<') :
    stripTags s = s ∧
    stripTags ('<' :: (inner ++ '>' :: b)) = stripTags b ∧
    stripTags (c :: b) = c :: stripTags b ∧
    processDescRaw (str "<b>bold</b> text") = str "bold text" :=
  ⟨stripTags_id s h1, stripTags_cons_tag inner b h2,
   stripTags_cons_other c b h3, by rfl⟩

theorem claim5_tag_stripping_witness :
    ('>' ∉ str "ab<c") ∧ ('>' ∉ str "b") ∧ ('x' ≠ '<') ∧
    (stripTags (str "ab<c") = str "ab<c" ∧
     stripTags ('<' :: (str "b" ++ '>' :: str "xy")) = stripTags (str "xy") ∧
     stripTags ('x' :: str "xy") = 'x' :: stripTags (str "xy") ∧
     processDescRaw (str "<b>bold</b> text") = str "bold text") :=
  ⟨by decide, by decide, by decide,
   claim5_tag_stripping (str "ab<c") (str "b") (str "xy") 'x'
     (by decide) (by decide) (by decide)⟩

/-- Claim C6 counterexample: decoding is not free of double-decoding.
`&amp;lt;` is the once-encoded form of the entity `&lt;`, so a decoder
that runs exactly once would give `&lt;`; the source's chained passes
give `<` instead (the `&lt;` produced by the amp pass is decoded again
by the later lt pass). -/
theorem claim6_counterexample :
    decodeEntities (str "&amp;lt;") = str "<" ∧ str "<" ≠ str "&lt;" :=
  ⟨by rfl, by decide⟩

/-- Claim C6 (amended): the amp replacement itself is a single
left-to-right pass, so `&amp;amp;` decodes to `&amp;` and not `&`; but
decoding is not in general run-once — an entity whose encoded form is
produced by the amp pass is decoded again by a later pass, e.g.
`&amp;lt;` decodes to `<`. -/
theorem claim6_amended :
    decodeEntities (str "&amp;amp;") = str "&amp;" ∧
    decodeEntities (str "&amp;lt;") = str "<" :=
  ⟨by rfl, by rfl⟩

/-- Claim C7 counterexample: the named entity `&apos;` is not decoded —
the decoder leaves it unchanged rather than producing an apostrophe. -/
theorem claim7_counterexample :
    decodeEntities (str "&apos;") = str "&apos;" ∧ str "&apos;" ≠ str "'" :=
  ⟨by rfl, by decide⟩

/-- Claim C7 (amended): the decoder replaces numeric character references
and the four named entities amp, lt, gt, quot; an apostrophe is produced
only from a numeric reference (`&#39;`, optionally with leading zeros),
while the named entity `&apos;` is left unchanged; entity-free text is
unchanged. -/
theorem claim7_amended (s : Str) (h : '&' ∉ s) :
    decodeEntities s = s ∧
    decodeEntities (str "&#72;&amp;&lt;&gt;&quot;&#039;&apos;") =
      str "H&<>\"'&apos;" :=
  ⟨decodeEntities_id s h, by rfl⟩

theorem claim7_amended_witness :
    ('&' ∉ str "plain text") ∧
    (decodeEntities (str "plain text") = str "plain text" ∧
     decodeEntities (str "&#72;&amp;&lt;&gt;&quot;&#039;&apos;") =
       str "H&<>\"'&apos;") :=
  ⟨by decide, claim7_amended (str "plain text") (by decide)⟩

/-- Claim C9 counterexample: an item whose image is given by an
`enclosure` tag with a `url` attribute does not get that url recorded —
the emitted record's image URL is absent. -/
theorem claim9_counterexample :
    parseRSS (str "<item><title>T</title><link>http://x</link><pubDate>D</pubDate><enclosure url=\"http://img/1.jpg\"/></item>") =
      [⟨str "T", str "http://x", [], str "D", none⟩] ∧
    (none : Option Str) ≠ some (str "http://img/1.jpg") :=
  ⟨by rfl, by decide⟩

/-- Claim C9 (amended): the image URL is matched only from a
`media:thumbnail` tag's `url` attribute inside the item block; an
`enclosure` tag's `url` attribute is ignored. -/
theorem claim9_amended :
    parseRSS (str "<item><title>T</title><link>http://x</link><pubDate>D</pubDate><media:thumbnail url=\"http://img/2.jpg\"/></item>") =
      [⟨str "T", str "http://x", [], str "D", some (str "http://img/2.jpg")⟩] ∧
    parseRSS (str "<item><title>T</title><link>http://x</link><pubDate>D</pubDate><enclosure url=\"http://img/1.jpg\"/></item>") =
      [⟨str "T", str "http://x", [], str "D", none⟩] :=
  ⟨by rfl, by rfl⟩

/-- Claim C3: a non-2xx upstream response makes the handler reply 500
with the uniform JSON error object whose details text contains the
upstream status code, and a network-level fetch failure is converted to
the same uniform 500 error response — an error never propagates items
partially. -/
theorem claim3_upstream_error (st : Nat) (stTxt body : Str)
    (h : okStatus st = false) :
    handler (.response st stTxt body) =
      ⟨500, [], .errorObj genericErrMsg (fetchFailMsg st stTxt)⟩ ∧
    List.IsInfix (natToStr st) (fetchFailMsg st stTxt) ∧
    ∀ msg, handler (.netError msg) = ⟨500, [], .errorObj genericErrMsg msg⟩ := by
  refine ⟨?_, ?_, fun msg => rfl⟩
  · simp [handler, h]
  · exact ⟨str "Failed to fetch RSS feed: ", [' '] ++ stTxt,
      by simp [fetchFailMsg, List.append_assoc]⟩

theorem claim3_upstream_error_witness :
    okStatus 503 = false ∧
    (handler (.response 503 (str "Service Unavailable") (str "")) =
       ⟨500, [], .errorObj genericErrMsg (fetchFailMsg 503 (str "Service Unavailable"))⟩ ∧
     List.IsInfix (natToStr 503) (fetchFailMsg 503 (str "Service Unavailable")) ∧
     ∀ msg, handler (.netError msg) = ⟨500, [], .errorObj genericErrMsg msg⟩) :=
  ⟨by decide, claim3_upstream_error 503 (str "Service Unavailable") (str "") (by decide)⟩

/-- Claim C10: the Cache-Control and Access-Control-Allow-Origin headers
are set only on the success path, together with the 200 items response;
on every error path (network failure or non-2xx upstream status) the
handler sends the 500 JSON error body with no headers set. -/
theorem claim10_headers_only_on_success (f : FetchOutcome) :
    ((handler f).status = 200 ∧ (handler f).headers = [cacheHeader, corsHeader] ∧
       ∃ l, (handler f).body = .items l) ∨
    ((handler f).status = 500 ∧ (handler f).headers = [] ∧
       ∃ e d, (handler f).body = .errorObj e d) := by
  cases f with
  | netError msg => exact Or.inr ⟨rfl, rfl, genericErrMsg, msg, rfl⟩
  | response st stTxt body =>
    cases hok : okStatus st with
    | true =>
      refine Or.inl ⟨?_, ?_, parseRSS body, ?_⟩ <;> simp [handler, hok]
    | false =>
      refine Or.inr ⟨?_, ?_, genericErrMsg, fetchFailMsg st stTxt, ?_⟩ <;>
        simp [handler, hok]

/-- Claim C1: the output is one optional record per located `<item>`
block (a filterMap over the extracted blocks, so at most one record per
block and never an error), a block yields a record exactly when the
processed title, link and publication timestamp are all present and
non-empty, and the number of records is at most the number of `<item>`
occurrences in the input. -/
theorem claim1_inclusion_and_cardinality (xml block : Str) :
    parseRSS xml = (extractItems xml).filterMap processItem ∧
    (parseRSS xml).length ≤ (extractItems xml).length ∧
    (parseRSS xml).length ≤ countOccur itemOpenL xml ∧
    ((processItem block).isSome ↔
      (∃ t, titleOf block = some t ∧ t ≠ []) ∧
      (∃ l, linkOf block = some l ∧ l ≠ []) ∧
      (∃ p, pubDateOf block = some p ∧ p ≠ [])) := by
  refine ⟨rfl, List.length_filterMap_le _ _,
    le_trans (List.length_filterMap_le _ _) (extractItems_length_le xml), ?_⟩
  unfold processItem
  cases ht : titleOf block with
  | none => simp
  | some t =>
    cases hl : linkOf block with
    | none => simp
    | some l =>
      cases hp : pubDateOf block with
      | none => simp
      | some p =>
        by_cases hcond : t ≠ [] ∧ l ≠ [] ∧ p ≠ []
        · simp only [if_pos hcond, Option.isSome_some, true_iff]
          exact ⟨⟨t, rfl, hcond.1⟩, ⟨l, rfl, hcond.2.1⟩, ⟨p, rfl, hcond.2.2⟩⟩
        · simp only [if_neg hcond, Option.isSome_none, Bool.false_eq_true, false_iff]
          intro ⟨⟨t', ht', hnt⟩, ⟨l', hl', hnl⟩, ⟨p', hp', hnp⟩⟩
          obtain rfl : t' = t := by injection ht' with h; exact h.symm
          obtain rfl : l' = l := by injection hl' with h; exact h.symm
          obtain rfl : p' = p := by injection hp' with h; exact h.symm
          exact hcond ⟨hnt, hnl, hnp⟩

/-! CDATA wrapper facts for the title/description envelope stripping. -/

theorem trim_wrap (X : Str) :
    trim (cdataOpenL ++ (X ++ cdataCloseL)) = cdataOpenL ++ (X ++ cdataCloseL) := by
  apply trim_eq_self
  · rw [show cdataOpenL = '<' :: str "![CDATA[" from rfl,
      List.cons_append, List.dropWhile_cons]
    rw [if_neg (by decide)]
  · rw [List.reverse_append, List.reverse_append,
      show cdataCloseL.reverse = '>' :: str "]]" from rfl, List.cons_append,
      List.cons_append, List.dropWhile_cons]
    rw [if_neg (by decide)]

theorem startsWithL_wrap (X : Str) :
    startsWithL cdataOpenL (cdataOpenL ++ (X ++ cdataCloseL)) = true :=
  startsWithL_append_self cdataOpenL (X ++ cdataCloseL)

theorem endsWithL_wrap (X : Str) :
    endsWithL cdataCloseL (cdataOpenL ++ (X ++ cdataCloseL)) = true := by
  unfold endsWithL
  rw [List.reverse_append, List.reverse_append, List.append_assoc]
  exact startsWithL_append_self cdataCloseL.reverse _

theorem jsSubstring_wrap (X : Str) :
    jsSubstring (cdataOpenL ++ (X ++ cdataCloseL)) 9
      ((cdataOpenL ++ (X ++ cdataCloseL)).length - 3) = X := by
  have hlen : (cdataOpenL ++ (X ++ cdataCloseL)).length = X.length + 12 := by
    have ho : cdataOpenL.length = 9 := rfl
    have hc : cdataCloseL.length = 3 := rfl
    simp only [List.length_append, ho, hc]
    omega
  unfold jsSubstring
  rw [hlen]
  have h1 : min 9 (X.length + 12) = 9 := by omega
  have h2 : min (X.length + 12 - 3) (X.length + 12) = X.length + 9 := by omega
  simp only [h1, h2]
  have h3 : min 9 (X.length + 9) = 9 := by omega
  have h4 : max 9 (X.length + 9) = X.length + 9 := by omega
  simp only [h3, h4]
  have h6 : X.length + 9 - 9 = X.length := by omega
  rw [h6]
  have hdrop : List.drop 9 (cdataOpenL ++ (X ++ cdataCloseL)) = X ++ cdataCloseL := by
    rw [show (9 : Nat) = cdataOpenL.length from rfl, drop_length_append]
  rw [hdrop, List.take_left]

theorem jsSubstring_wrap' (X : Str) :
    jsSubstring (cdataOpenL ++ (X ++ cdataCloseL)) 9
      (cdataOpenL.length + (X.length + cdataCloseL.length) - 3) = X := by
  have h : cdataOpenL.length + (X.length + cdataCloseL.length) - 3
      = (cdataOpenL ++ (X ++ cdataCloseL)).length - 3 := by
    simp [List.length_append]
  rw [h]
  exact jsSubstring_wrap X

/-- Claim C8: an item field wrapped in a CDATA envelope produces the same
output as the unwrapped equivalent content: the wrapper markers are
removed and the subsequent title/description processing agrees exactly. -/
theorem claim8_cdata_equiv (X : Str) (h1 : X ≠ [])
    (h2 : startsWithL cdataOpenL (trim X) = false) :
    processTitleRaw (cdataOpenL ++ X ++ cdataCloseL) = processTitleRaw X ∧
    processDescRaw (cdataOpenL ++ X ++ cdataCloseL) = processDescRaw X := by
  have hne : cdataOpenL ++ X ++ cdataCloseL ≠ [] := by
    rw [show cdataOpenL = '<' :: str "![CDATA[" from rfl]
    simp
  constructor
  · simp [processTitleRaw, hne, h1, h2, trim_wrap, startsWithL_wrap,
      endsWithL_wrap, jsSubstring_wrap, jsSubstring_wrap']
  · simp [processDescRaw, h2, trim_wrap, startsWithL_wrap, jsSubstring_wrap,
      jsSubstring_wrap']

theorem claim8_cdata_equiv_witness :
    (str " Hello <b>w</b> " ≠ []) ∧
    (startsWithL cdataOpenL (trim (str " Hello <b>w</b> ")) = false) ∧
    (processTitleRaw (cdataOpenL ++ str " Hello <b>w</b> " ++ cdataCloseL) =
       processTitleRaw (str " Hello <b>w</b> ") ∧
     processDescRaw (cdataOpenL ++ str " Hello <b>w</b> " ++ cdataCloseL) =
       processDescRaw (str " Hello <b>w</b> ")) :=
  ⟨by decide, by decide,
   claim8_cdata_equiv (str " Hello <b>w</b> ") (by decide) (by decide)⟩

theorem splitOnFirst_self_append' (pat s : Str) (hne : pat ≠ []) :
    splitOnFirst pat (pat ++ s) = some ([], s) := by
  obtain ⟨q, qs, rfl⟩ : ∃ q qs, pat = q :: qs := by
    cases pat with
    | nil => exact absurd rfl hne
    | cons q qs => exact ⟨q, qs, rfl⟩
  exact splitOnFirst_self_append q qs s

/-- Skipping a payload segment that contains no `<`, for a tag pattern
that begins with `<`. -/
theorem splitOnFirst_lt_append (pat a s : Str) (hne : pat ≠ [])
    (hh : pat.head? = some '<') (ha : ∀ c ∈ a, c ≠ '<') :
    splitOnFirst pat (a ++ s) = shiftSplit a (splitOnFirst pat s) :=
  splitOnFirst_abs_append pat a s hne (fun c hc => by
    rw [hh]
    simp only [ne_eq, Option.some.injEq]
    exact fun he => (ha c hc) he.symm)

theorem extractItemsAux_nil (k : Nat) : extractItemsAux k [] = [] := by
  cases k <;> rfl

/-- Claim C4: for every well-formed `<item>` block containing title, link
and pubDate fields (payloads free of `<` and non-empty after trimming),
the emitted record carries exactly the matched link and publication
timestamp trimmed of surrounding whitespace — no other alteration — and
the title trimmed then processed as specified (CDATA check and entity
decoding); with no description or thumbnail present, the description is
empty and the image URL absent. -/

theorem claim4_wellformed_item (t l p : Str)
    (ht : ∀ c ∈ t, c ≠ '<') (hl : ∀ c ∈ l, c ≠ '<') (hp : ∀ c ∈ p, c ≠ '<')
    (ht1 : trim t ≠ []) (ht2 : decodeEntities (trim t) ≠ [])
    (hl1 : trim l ≠ []) (hp1 : trim p ≠ []) :
    parseRSS (itemOpenL ++ (titleOpenL ++ (t ++ (titleCloseL ++ (linkOpenL ++
        (l ++ (linkCloseL ++ (pubOpenL ++ (p ++ (pubCloseL ++ itemCloseL)))))))))) =
      [⟨decodeEntities (trim t), trim l, [], trim p, none⟩] := by
  have hrest : splitOnFirst itemOpenL (itemOpenL ++ (titleOpenL ++ (t ++ (titleCloseL ++ (linkOpenL ++ (l ++ (linkCloseL ++ (pubOpenL ++ (p ++ (pubCloseL ++ itemCloseL)))))))))) =
      some ([], titleOpenL ++ (t ++ (titleCloseL ++ (linkOpenL ++ (l ++ (linkCloseL ++ (pubOpenL ++ (p ++ (pubCloseL ++ itemCloseL))))))))) :=
    splitOnFirst_self_append' _ _ (by decide)
  have hclose : splitOnFirst itemCloseL (titleOpenL ++ (t ++ (titleCloseL ++ (linkOpenL ++ (l ++ (linkCloseL ++ (pubOpenL ++ (p ++ (pubCloseL ++ itemCloseL))))))))) =
      some (titleOpenL ++ (t ++ (titleCloseL ++ (linkOpenL ++ (l ++ (linkCloseL ++ (pubOpenL ++ (p ++ pubCloseL))))))), []) := by
    rw [splitOnFirst_seg_append itemCloseL titleOpenL _ (by decide),
        splitOnFirst_lt_append itemCloseL t _ (by decide) rfl ht,
        splitOnFirst_seg_append itemCloseL titleCloseL _ (by decide),
        splitOnFirst_seg_append itemCloseL linkOpenL _ (by decide),
        splitOnFirst_lt_append itemCloseL l _ (by decide) rfl hl,
        splitOnFirst_seg_append itemCloseL linkCloseL _ (by decide),
        splitOnFirst_seg_append itemCloseL pubOpenL _ (by decide),
        splitOnFirst_lt_append itemCloseL p _ (by decide) rfl hp,
        splitOnFirst_seg_append itemCloseL pubCloseL _ (by decide),
        show splitOnFirst itemCloseL itemCloseL = some ([], []) from by decide]
    simp [shiftSplit_some]
  have hitems : extractItems (itemOpenL ++ (titleOpenL ++ (t ++ (titleCloseL ++ (linkOpenL ++ (l ++ (linkCloseL ++ (pubOpenL ++ (p ++ (pubCloseL ++ itemCloseL)))))))))) =
      [titleOpenL ++ (t ++ (titleCloseL ++ (linkOpenL ++ (l ++ (linkCloseL ++ (pubOpenL ++ (p ++ pubCloseL)))))))] := by
    unfold extractItems
    cases hxl : (itemOpenL ++ (titleOpenL ++ (t ++ (titleCloseL ++ (linkOpenL ++ (l ++ (linkCloseL ++ (pubOpenL ++ (p ++ (pubCloseL ++ itemCloseL)))))))))).length with
    | zero =>
      exfalso
      have hnil := List.length_eq_zero.mp hxl
      have : itemOpenL = [] := (List.append_eq_nil.mp hnil).1
      exact absurd this (by decide)
    | succ n =>
      simp only [extractItemsAux, hrest, hclose, extractItemsAux_nil]
  have htitle : titleOf (titleOpenL ++ (t ++ (titleCloseL ++ (linkOpenL ++ (l ++ (linkCloseL ++ (pubOpenL ++ (p ++ pubCloseL)))))))) =
      some (decodeEntities (trim t)) := by
    have hsp1 : splitOnFirst titleOpenL (titleOpenL ++ (t ++ (titleCloseL ++ (linkOpenL ++ (l ++ (linkCloseL ++ (pubOpenL ++ (p ++ pubCloseL)))))))) =
        some ([], t ++ (titleCloseL ++ (linkOpenL ++ (l ++ (linkCloseL ++ (pubOpenL ++ (p ++ pubCloseL))))))) :=
      splitOnFirst_self_append' _ _ (by decide)
    have hsp2 : splitOnFirst titleCloseL (t ++ (titleCloseL ++ (linkOpenL ++ (l ++ (linkCloseL ++ (pubOpenL ++ (p ++ pubCloseL))))))) =
        some (t, linkOpenL ++ (l ++ (linkCloseL ++ (pubOpenL ++ (p ++ pubCloseL))))) := by
      rw [splitOnFirst_lt_append titleCloseL t _ (by decide) rfl ht,
          splitOnFirst_self_append' titleCloseL _ (by decide)]
      simp [shiftSplit_some]
    have htne : t ≠ [] := ne_nil_of_trim_ne_nil ht1
    have hcd : startsWithL cdataOpenL (trim t) = false := by
      rw [show cdataOpenL = '<' :: str "![CDATA[" from rfl]
      exact startsWithL_head_notMem '<' _ _ (fun hm => (ht '<' (mem_trim hm)) rfl)
    unfold titleOf matchBetween
    simp only [hsp1, hsp2]
    simp [processTitleRaw, htne, hcd]
  have hlink : linkOf (titleOpenL ++ (t ++ (titleCloseL ++ (linkOpenL ++ (l ++ (linkCloseL ++ (pubOpenL ++ (p ++ pubCloseL)))))))) =
      some (trim l) := by
    have hsp1 : splitOnFirst linkOpenL (titleOpenL ++ (t ++ (titleCloseL ++ (linkOpenL ++ (l ++ (linkCloseL ++ (pubOpenL ++ (p ++ pubCloseL)))))))) =
        some (titleOpenL ++ (t ++ titleCloseL), l ++ (linkCloseL ++ (pubOpenL ++ (p ++ pubCloseL)))) := by
      rw [splitOnFirst_seg_append linkOpenL titleOpenL _ (by decide),
          splitOnFirst_lt_append linkOpenL t _ (by decide) rfl ht,
          splitOnFirst_seg_append linkOpenL titleCloseL _ (by decide),
          splitOnFirst_self_append' linkOpenL _ (by decide)]
      simp [shiftSplit_some]
    have hsp2 : splitOnFirst linkCloseL (l ++ (linkCloseL ++ (pubOpenL ++ (p ++ pubCloseL)))) =
        some (l, pubOpenL ++ (p ++ pubCloseL)) := by
      rw [splitOnFirst_lt_append linkCloseL l _ (by decide) rfl hl,
          splitOnFirst_self_append' linkCloseL _ (by decide)]
      simp [shiftSplit_some]
    unfold linkOf matchBetween
    simp only [hsp1, hsp2]
    rfl
  have hpub : pubDateOf (titleOpenL ++ (t ++ (titleCloseL ++ (linkOpenL ++ (l ++ (linkCloseL ++ (pubOpenL ++ (p ++ pubCloseL)))))))) =
      some (trim p) := by
    have hsp1 : splitOnFirst pubOpenL (titleOpenL ++ (t ++ (titleCloseL ++ (linkOpenL ++ (l ++ (linkCloseL ++ (pubOpenL ++ (p ++ pubCloseL)))))))) =
        some (titleOpenL ++ (t ++ (titleCloseL ++ (linkOpenL ++ (l ++ linkCloseL)))), p ++ pubCloseL) := by
      rw [splitOnFirst_seg_append pubOpenL titleOpenL _ (by decide),
          splitOnFirst_lt_append pubOpenL t _ (by decide) rfl ht,
          splitOnFirst_seg_append pubOpenL titleCloseL _ (by decide),
          splitOnFirst_seg_append pubOpenL linkOpenL _ (by decide),
          splitOnFirst_lt_append pubOpenL l _ (by decide) rfl hl,
          splitOnFirst_seg_append pubOpenL linkCloseL _ (by decide),
          splitOnFirst_self_append' pubOpenL _ (by decide)]
      simp [shiftSplit_some]
    have hsp2 : splitOnFirst pubCloseL (p ++ pubCloseL) = some (p, []) := by
      rw [splitOnFirst_lt_append pubCloseL p _ (by decide) rfl hp,
          show splitOnFirst pubCloseL pubCloseL = some ([], []) from by decide]
      simp [shiftSplit_some]
    unfold pubDateOf matchBetween
    simp only [hsp1, hsp2]
    rfl
  have hdesc : descriptionOf (titleOpenL ++ (t ++ (titleCloseL ++ (linkOpenL ++ (l ++ (linkCloseL ++ (pubOpenL ++ (p ++ pubCloseL)))))))) = [] := by
    have hsp1 : splitOnFirst descOpenL (titleOpenL ++ (t ++ (titleCloseL ++ (linkOpenL ++ (l ++ (linkCloseL ++ (pubOpenL ++ (p ++ pubCloseL)))))))) = none := by
      rw [splitOnFirst_seg_append descOpenL titleOpenL _ (by decide),
          splitOnFirst_lt_append descOpenL t _ (by decide) rfl ht,
          splitOnFirst_seg_append descOpenL titleCloseL _ (by decide),
          splitOnFirst_seg_append descOpenL linkOpenL _ (by decide),
          splitOnFirst_lt_append descOpenL l _ (by decide) rfl hl,
          splitOnFirst_seg_append descOpenL linkCloseL _ (by decide),
          splitOnFirst_seg_append descOpenL pubOpenL _ (by decide),
          splitOnFirst_lt_append descOpenL p _ (by decide) rfl hp,
          show splitOnFirst descOpenL pubCloseL = none from by decide]
      simp [shiftSplit_none]
    unfold descriptionOf matchBetween
    simp only [hsp1, Option.getD_none]
    rfl
  have himg : imageUrlOf (titleOpenL ++ (t ++ (titleCloseL ++ (linkOpenL ++ (l ++ (linkCloseL ++ (pubOpenL ++ (p ++ pubCloseL)))))))) = none := by
    have hsp1 : splitOnFirst thumbOpenL (titleOpenL ++ (t ++ (titleCloseL ++ (linkOpenL ++ (l ++ (linkCloseL ++ (pubOpenL ++ (p ++ pubCloseL)))))))) = none := by
      rw [splitOnFirst_seg_append thumbOpenL titleOpenL _ (by decide),
          splitOnFirst_lt_append thumbOpenL t _ (by decide) rfl ht,
          splitOnFirst_seg_append thumbOpenL titleCloseL _ (by decide),
          splitOnFirst_seg_append thumbOpenL linkOpenL _ (by decide),
          splitOnFirst_lt_append thumbOpenL l _ (by decide) rfl hl,
          splitOnFirst_seg_append thumbOpenL linkCloseL _ (by decide),
          splitOnFirst_seg_append thumbOpenL pubOpenL _ (by decide),
          splitOnFirst_lt_append thumbOpenL p _ (by decide) rfl hp,
          show splitOnFirst thumbOpenL pubCloseL = none from by decide]
      simp [shiftSplit_none]
    unfold imageUrlOf
    simp only [hsp1]
  have hproc : processItem (titleOpenL ++ (t ++ (titleCloseL ++ (linkOpenL ++ (l ++ (linkCloseL ++ (pubOpenL ++ (p ++ pubCloseL)))))))) =
      some ⟨decodeEntities (trim t), trim l, [], trim p, none⟩ := by
    unfold processItem
    simp only [htitle, hlink, hpub, hdesc, himg]
    rw [if_pos ⟨ht2, hl1, hp1⟩]
  unfold parseRSS
  rw [hitems]
  simp [hproc]

theorem claim4_wellformed_item_witness :
    (∀ c ∈ str " Test ", c ≠ '<') ∧ (∀ c ∈ str "http://x/1", c ≠ '<') ∧
    (∀ c ∈ str "Mon, 01 Jan 2024 00:00:00 GMT", c ≠ '<') ∧
    trim (str " Test ") ≠ [] ∧ decodeEntities (trim (str " Test ")) ≠ [] ∧
    trim (str "http://x/1") ≠ [] ∧
    trim (str "Mon, 01 Jan 2024 00:00:00 GMT") ≠ [] ∧
    parseRSS (itemOpenL ++ (titleOpenL ++ (str " Test " ++ (titleCloseL ++
        (linkOpenL ++ (str "http://x/1" ++ (linkCloseL ++ (pubOpenL ++
        (str "Mon, 01 Jan 2024 00:00:00 GMT" ++ (pubCloseL ++ itemCloseL)))))))))) =
      [⟨decodeEntities (trim (str " Test ")), trim (str "http://x/1"), [],
        trim (str "Mon, 01 Jan 2024 00:00:00 GMT"), none⟩] :=
  ⟨by decide, by decide, by decide, by decide, by decide, by decide, by decide,
   claim4_wellformed_item (str " Test ") (str "http://x/1")
     (str "Mon, 01 Jan 2024 00:00:00 GMT")
     (by decide) (by decide) (by decide) (by decide) (by decide) (by decide)
     (by decide)⟩
